import Mathlib

/-!
Verification of the userver connection-pool / cluster-topology specification
against a shallow embedding of the repository sources.

Embedded components:
* `Logging` — logging/timestamp.cpp (FractionalMicroseconds).
* `Json` — formats/json/inline.cpp (InlineObjectBuilder / InlineArrayBuilder
  double overloads).
* `Pg` — the PostgreSQL connection pool (pool_impl.hpp) and the quorum-commit
  topology (declared in the headers and exercised by
  tests/topology_pgtest.cpp; the .cpp bodies are not part of the shown
  sources, so those operations are modelled from the specification text, as
  marked in the individual doc comments).
-/

namespace Userver

namespace Logging

/-- A logging TimePoint, represented by the value of
time_point_cast to microseconds of its time-since-epoch, i.e. the signed count
returned by time_since_epoch().count() in timestamp.cpp; embedded as an
unbounded Int (the claim quantifies over the mathematical value, and no
64-bit overflow is relevant to the property). -/
def TimePointMicros : Type := Int

/-- logging::FractionalMicroseconds from timestamp.cpp lines 11-13:
returns count % 1000000 where count is the (signed) microsecond count of the
time since epoch and % is the C++ signed remainder (truncated division),
which is Int.tmod. -/
def FractionalMicroseconds (t : Int) : Int :=
  Int.tmod t 1000000

end Logging

namespace Json

/-- A C++ double, abstracted to the classification that
formats::common::ValidateFloat inspects: a finite number (payload kept
abstractly as an integer scaled value — its numeric identity is irrelevant
to the claims), a NaN, or an infinity of either sign. -/
inductive DoubleVal where
  | finite (x : Int)
  | nan
  | posInf
  | negInf
deriving DecidableEq

/-- Whether the double is a finite number (std::isfinite). -/
def DoubleVal.isFinite : DoubleVal → Bool
  | .finite _ => true
  | _ => false

/-- formats::json::Exception as thrown by ValidateFloat at the two double
Append call sites in inline.cpp. -/
inductive JsonException where
  | valueIsNotFinite
deriving DecidableEq

/-- Modelled from the spec: formats::common::ValidateFloat (declared in
formats/common/validations.hpp, which is not under the shown sources) —
validates that a double value is a finite number and throws the exception
type given as template argument otherwise; inline.cpp instantiates it with
formats::json::Exception. -/
def ValidateFloat (v : DoubleVal) : Except JsonException Unit :=
  if v.isFinite then .ok () else .error .valueIsNotFinite

/-- The document under construction by InlineObjectBuilder: a rapidjson
object value; only the members relevant to the claims (key plus double
payload) are represented. -/
structure InlineObjectBuilder where
  members : List (String × DoubleVal)
deriving DecidableEq

/-- InlineObjectBuilder::Append(std::string_view, double) from inline.cpp
lines 87-90: validate the double first, then AddMember; a thrown exception
propagates before the document is touched. -/
def InlineObjectBuilder.Append (b : InlineObjectBuilder) (key : String)
    (value : DoubleVal) : Except JsonException InlineObjectBuilder :=
  match ValidateFloat value with
  | .error e => .error e
  | .ok () => .ok { members := b.members ++ [(key, value)] }

/-- The document under construction by InlineArrayBuilder: a rapidjson array
value; only the double elements are represented. -/
structure InlineArrayBuilder where
  elements : List DoubleVal
deriving DecidableEq

/-- InlineArrayBuilder::Append(double) from inline.cpp lines 157-160:
validate the double first, then PushBack; a thrown exception propagates
before the document is touched. -/
def InlineArrayBuilder.Append (b : InlineArrayBuilder)
    (value : DoubleVal) : Except JsonException InlineArrayBuilder :=
  match ValidateFloat value with
  | .error e => .error e
  | .ok () => .ok { elements := b.elements ++ [value] }

end Json

namespace Pg

/-- storages::postgres::ClusterHostType, the role a probe round assigns to a
host (Excluded stands for a host that is absent from the published map). -/
inductive ClusterHostType where
  | kMaster
  | kSyncSlave
  | kSlave
  | kExcluded
deriving DecidableEq

/-- What one host reports during a probe round: whether the probe reached it
at all, whether it is in recovery (read-only), its replication lag (in the
same time unit as the configured maximum, seconds in the tests), and whether
the database designates it as the synchronous replica. -/
structure HostReport where
  reachable : Bool
  readOnly : Bool
  lag : Int
  isSyncReplica : Bool
deriving DecidableEq

/-- storages::postgres::TopologySettings: the configured maximum replication
lag (TopologySettings{kMaxTestWaitTime} and
TopologySettings{std::chrono::seconds{-1}} in topology_pgtest.cpp). -/
structure TopologySettings where
  maxReplicationLag : Int
deriving DecidableEq

/-- Modelled from the spec: per-host classification of one probe round
(quorum_commit.cpp is not under the shown sources).  An unreachable or
erroring host is Excluded; the host not in recovery is the Master candidate;
a designated synchronous replica is SyncSlave independent of lag filtering;
a remaining read-only host is Slave exactly when its lag is at most the
configured maximum, else Excluded.  The lag rule is fixed by the repository
test PostgreTopology.ReplicationLag (topology_pgtest.cpp lines 44-64): with
TopologySettings{seconds{-1}} the test requires every slave to be Excluded
("Slaves should be excluded due to unsatisfied lag requirements"), so there
is no special disabling of lag tracking for a non-positive maximum. -/
def classifyHost (s : TopologySettings) (h : HostReport) : ClusterHostType :=
  if !h.reachable then .kExcluded
  else if !h.readOnly then .kMaster
  else if h.isSyncReplica then .kSyncSlave
  else if h.lag ≤ s.maxReplicationLag then .kSlave
  else .kExcluded

/-- The per-host classification rule exactly as the specification sentence
states it ("or lag tracking is disabled, signified by a non-positive max-lag
setting, in which case all read-only hosts qualify"): kept only to exhibit
where the specification diverges from the behaviour the repository test
demands. -/
def classifyHostSpecStated (s : TopologySettings) (h : HostReport) :
    ClusterHostType :=
  if !h.reachable then .kExcluded
  else if !h.readOnly then .kMaster
  else if h.isSyncReplica then .kSyncSlave
  else if s.maxReplicationLag ≤ 0 then .kSlave
  else if h.lag ≤ s.maxReplicationLag then .kSlave
  else .kExcluded

/-- Indices (stable positions in the configured host list) of the hosts that
a round classified with the given role. -/
def indicesOf (roles : List ClusterHostType) (t : ClusterHostType) :
    List Nat :=
  ((roles.enum).filter fun p => decide (p.2 = t)).map Prod.fst

/-- The published index-keyed classification map
(mapping ClusterHostType to the set of host indices); hosts Excluded in the
round are absent. -/
structure DsnIndicesByType where
  master : List Nat
  syncSlave : List Nat
  slave : List Nat
deriving DecidableEq

/-- Modelled from the spec: the complete classification computed by one
probe round from the per-host reports. -/
def classifyRound (s : TopologySettings) (reports : List HostReport) :
    DsnIndicesByType :=
  let roles := reports.map (classifyHost s)
  { master := indicesOf roles .kMaster
    syncSlave := indicesOf roles .kSyncSlave
    slave := indicesOf roles .kSlave }

/-- Modelled from the spec: a probe round is consistent exactly when one
single host reports mastership (reachable and not read-only). -/
def roundConsistent (s : TopologySettings) (reports : List HostReport) :
    Bool :=
  (indicesOf (reports.map (classifyHost s)) .kMaster).length == 1

/-- Modelled from the spec: one probe round updates the published snapshot —
a consistent round replaces the whole map in a single atomic swap, an
inconsistent round (zero or several masters) keeps the previous snapshot. -/
def runRound (s : TopologySettings) (snap : DsnIndicesByType)
    (reports : List HostReport) : DsnIndicesByType :=
  if roundConsistent s reports then classifyRound s reports else snap

/-- storages::postgres::detail::QuorumCommitTopology: the topology settings
plus the currently published snapshot. -/
structure QuorumCommitTopology where
  settings : TopologySettings
  dsnIndicesByType : DsnIndicesByType
deriving DecidableEq

/-- QuorumCommitTopology::GetDsnIndicesByType: the read path returns the
currently published snapshot; it is a total function (it never fails and
never blocks on the probe loop). -/
def QuorumCommitTopology.GetDsnIndicesByType (t : QuorumCommitTopology) :
    DsnIndicesByType :=
  t.dsnIndicesByType

/-- One background probe round applied to the whole topology state. -/
def topologyStep (t : QuorumCommitTopology) (reports : List HostReport) :
    QuorumCommitTopology :=
  { t with dsnIndicesByType := runRound t.settings t.dsnIndicesByType reports }

/-- A sequence of background probe rounds. -/
def runRounds (t : QuorumCommitTopology) (rounds : List (List HostReport)) :
    QuorumCommitTopology :=
  rounds.foldl topologyStep t

/-- storages::postgres::CommandControl: the per-operation settings bundle
(statement timeout, connect timeout, retry count; spec section 6). -/
structure CommandControl where
  statementTimeoutMs : Nat
  connectTimeoutMs : Nat
  retries : Nat
deriving DecidableEq

/-- The outcome of the blocking wait inside Acquire once the free list was
found empty: either an asynchronous Connect task completed and its fresh
connection was handed to this waiter, or the deadline expired first, or the
connect attempt failed so that no connection could be established. -/
inductive WaitOutcome where
  | gotConn
  | deadlineHit
  | connectFailed
deriving DecidableEq

/-- The result of ConnectionPoolImpl::Acquire: a connection (by id), or the
PoolTimeout error, or the PoolError error. -/
inductive AcquireResult where
  | ok (connId : Nat)
  | poolTimeout
  | poolError
deriving DecidableEq

/-- The state of ConnectionPoolImpl (pool_impl.hpp lines 70-85):
connections are identified by ids handed out from the fresh counter nextId;
size is the shared counter of connections created-but-not-destroyed
(including in-flight connect attempts, each holding a SizeGuard);
freeList is the lock-free queue of available connections; inUse are the
connections currently owned by callers; destroyed records the ids whose
SizeGuard was already released by DeleteConnection; notifyCount counts the
NotifyOne calls on the condition variable; defaultCmdCtl is the rcu-held
default command control. -/
structure PoolState where
  maxSize : Nat
  size : Int
  freeList : List Nat
  inUse : List Nat
  connecting : Nat
  nextId : Nat
  destroyed : List Nat
  notifyCount : Nat
  defaultCmdCtl : CommandControl
deriving DecidableEq

/-- Modelled from the spec: the background-growth signal inside Acquire
(pool_impl.cpp is not under the shown sources) — if size < max_size an
asynchronous Connect task is spawned, guarded by a Capacity Guard so that
size reflects the in-flight attempt; otherwise nothing is spawned. -/
def spawnGrowth (s : PoolState) : PoolState :=
  if s.size < (s.maxSize : Int) then
    { s with size := s.size + 1, connecting := s.connecting + 1 }
  else s

/-- Modelled from the spec: ConnectionPoolImpl::Acquire / Pop (spec section
4.1; pool_impl.cpp is not under the shown sources).  The deadline is
abstracted to whether it has already elapsed at the call, and the blocking
wait on the condition variable to a WaitOutcome chosen by the environment:
an already-elapsed deadline fails immediately with PoolTimeout; otherwise a
non-blocking pop from the free list is tried first and returns on success;
on empty, background growth is signalled and the caller blocks until a
connection is handed over (gotConn, sound only while a connect is in
flight — with none in flight the caller keeps waiting and the deadline
wins), the deadline expires (PoolTimeout), or the connect attempt fails so
no connection can be established (PoolError, the failing task releasing its
Capacity Guard). -/
def Acquire (s : PoolState) (deadlineElapsed : Bool) (w : WaitOutcome) :
    AcquireResult × PoolState :=
  if deadlineElapsed then (.poolTimeout, s)
  else
    match s.freeList with
    | c :: rest => (.ok c, { s with freeList := rest, inUse := c :: s.inUse })
    | [] =>
      match w with
      | .gotConn =>
        if 0 < (spawnGrowth s).connecting then
          (.ok (spawnGrowth s).nextId,
            { spawnGrowth s with
                connecting := (spawnGrowth s).connecting - 1
                inUse := (spawnGrowth s).nextId :: (spawnGrowth s).inUse
                nextId := (spawnGrowth s).nextId + 1 })
        else (.poolTimeout, spawnGrowth s)
      | .deadlineHit => (.poolTimeout, spawnGrowth s)
      | .connectFailed =>
        if 0 < (spawnGrowth s).connecting then
          (.poolError,
            { spawnGrowth s with
                connecting := (spawnGrowth s).connecting - 1
                size := (spawnGrowth s).size - 1 })
        else (.poolError, spawnGrowth s)

/-- Modelled from the spec: ConnectionPoolImpl::Release (spec section 4.1) —
the released connection (the caller-owned one, taken here from the front of
inUse) is destroyed via DeleteConnection, decrementing size, when it reports
itself broken or the pool is over capacity; otherwise it is pushed back to
the free list and one waiter is notified. -/
def Release (s : PoolState) (broken : Bool) : PoolState :=
  match s.inUse with
  | [] => s
  | c :: rest =>
    if broken || decide ((s.maxSize : Int) < s.size) then
      { s with
          inUse := rest
          size := s.size - 1
          destroyed := c :: s.destroyed }
    else
      { s with
          inUse := rest
          freeList := c :: s.freeList
          notifyCount := s.notifyCount + 1 }

/-- Modelled from the spec: a background Connect task completing
successfully — it consumes its in-flight slot, pushes the fresh connection
onto the free list (the Capacity Guard moves into the connection, so size
is unchanged) and notifies one waiter. -/
def connectSuccess (s : PoolState) : PoolState :=
  if 0 < s.connecting then
    { s with
        connecting := s.connecting - 1
        freeList := s.nextId :: s.freeList
        nextId := s.nextId + 1
        notifyCount := s.notifyCount + 1 }
  else s

/-- Modelled from the spec: a background Connect task failing — the Capacity
Guard is released on this exit path too, decrementing size, and no
connection is produced. -/
def connectFailure (s : PoolState) : PoolState :=
  if 0 < s.connecting then
    { s with connecting := s.connecting - 1, size := s.size - 1 }
  else s

/-- ConnectionPoolImpl::SetDefaultCommandControl: atomically replaces the
rcu-held default command control block. -/
def SetDefaultCommandControl (s : PoolState) (cc : CommandControl) :
    PoolState :=
  { s with defaultCmdCtl := cc }

/-- One event of a pool history: an Acquire call, a Release of the oldest
caller-owned connection, the completion (successful or failing) of a
background Connect task, or a reconfiguration. -/
inductive PoolEvent where
  | acquire (deadlineElapsed : Bool) (w : WaitOutcome)
  | release (broken : Bool)
  | connSuccess
  | connFailure
  | setCmdCtl (cc : CommandControl)
deriving DecidableEq

/-- The pool state after one event. -/
def step (s : PoolState) (e : PoolEvent) : PoolState :=
  match e with
  | .acquire d w => (Acquire s d w).2
  | .release broken => Release s broken
  | .connSuccess => connectSuccess s
  | .connFailure => connectFailure s
  | .setCmdCtl cc => SetDefaultCommandControl s cc

/-- The pool state after a sequence of events. -/
def run (s : PoolState) (es : List PoolEvent) : PoolState :=
  es.foldl step s

/-- A freshly created pool (before Init spawns its initial connect tasks,
which the event sequence models like any other background growth). -/
def initialPool (maxSize : Nat) (cc : CommandControl) : PoolState :=
  { maxSize := maxSize
    size := 0
    freeList := []
    inUse := []
    connecting := 0
    nextId := 0
    destroyed := []
    notifyCount := 0
    defaultCmdCtl := cc }

/-- Resolution of the effective command control at transaction start:
the per-transaction override if present, else the pool default. -/
def resolveCommandControl (cc : Option CommandControl)
    (dflt : CommandControl) : CommandControl :=
  cc.getD dflt

/-- A started transaction: it carries the command control resolved at its
start and never re-reads the pool configuration afterwards. -/
structure Transaction where
  cmdCtl : CommandControl
deriving DecidableEq

/-- Modelled from the spec: ConnectionPoolImpl::Begin resolves the
effective command control against the configuration current at the call
(the connection-acquisition part is orthogonal to the configuration claims
and not repeated here). -/
def Begin (s : PoolState) (cc : Option CommandControl) : Transaction :=
  { cmdCtl := resolveCommandControl cc s.defaultCmdCtl }

/-- The pool invariant relating the size counter to the connections alive
in each ownership class, together with exclusive ownership (no id is in two
places at once) and freshness bookkeeping for destroyed ids. -/
structure GoodState (s : PoolState) : Prop where
  accounting : s.size =
    ((s.freeList.length + s.inUse.length + s.connecting : Nat) : Int)
  bounded : s.size ≤ (s.maxSize : Int)
  freeNodup : s.freeList.Nodup
  inUseNodup : s.inUse.Nodup
  ownDisjoint : ∀ c ∈ s.freeList, c ∉ s.inUse
  freeFresh : ∀ c ∈ s.freeList, c < s.nextId
  inUseFresh : ∀ c ∈ s.inUse, c < s.nextId
  destroyedFresh : ∀ c ∈ s.destroyed, c < s.nextId
  destroyedNotFree : ∀ c ∈ s.destroyed, c ∉ s.freeList
  destroyedNotInUse : ∀ c ∈ s.destroyed, c ∉ s.inUse

lemma runRounds_settings (t : QuorumCommitTopology)
    (rounds : List (List HostReport)) :
    (runRounds t rounds).settings = t.settings := by
  induction rounds generalizing t with
  | nil => rfl
  | cons r rs ih => exact ih (topologyStep t r)

/-- Sanity check mirroring the worked example of the specification: with
max lag 60, hosts (master, slave with lag 5, slave with lag 200) classify to
Master = index 0, Slave = index 1, host 2 excluded (absent). -/
lemma classifyRound_spec_example :
    classifyRound ⟨60⟩
      [⟨true, false, 0, false⟩, ⟨true, true, 5, false⟩,
       ⟨true, true, 200, false⟩] = ⟨[0], [], [1]⟩ := by
  decide

lemma length_indicesOf_enumFrom (n : Nat) (roles : List ClusterHostType)
    (t : ClusterHostType) :
    (((List.enumFrom n roles).filter fun p => decide (p.2 = t)).map
      Prod.fst).length = roles.countP fun r => decide (r = t) := by
  induction roles generalizing n with
  | nil => simp
  | cons r rs ih =>
    by_cases hr : r = t
    · simp [List.enumFrom, List.countP_cons, hr, ih]
    · simp [List.enumFrom, List.countP_cons, hr, ih]

lemma length_indicesOf (roles : List ClusterHostType) (t : ClusterHostType) :
    (indicesOf roles t).length = roles.countP fun r => decide (r = t) :=
  length_indicesOf_enumFrom 0 roles t

lemma classifyHost_master_bool (s : TopologySettings) (r : HostReport) :
    decide (classifyHost s r = ClusterHostType.kMaster)
      = (r.reachable && !r.readOnly) := by
  cases hr : r.reachable <;> cases hro : r.readOnly <;>
    cases hsy : r.isSyncReplica <;>
      by_cases hl : r.lag ≤ s.maxReplicationLag <;>
        simp [classifyHost, hr, hro, hsy, hl]

lemma master_indices_count (s : TopologySettings)
    (reports : List HostReport) :
    (indicesOf (reports.map (classifyHost s)) .kMaster).length
      = (reports.filter fun r => r.reachable && !r.readOnly).length := by
  rw [length_indicesOf, List.countP_map]
  have h : reports.countP
        ((fun r => decide (r = ClusterHostType.kMaster)) ∘ classifyHost s)
      = reports.countP fun r => r.reachable && !r.readOnly := by
    apply List.countP_congr
    intro r _
    simp only [Function.comp]
    rw [classifyHost_master_bool]
  rw [h, List.countP_eq_length_filter]

@[simp] lemma spawnGrowth_freeList (s : PoolState) :
    (spawnGrowth s).freeList = s.freeList := by
  unfold spawnGrowth
  split <;> rfl

@[simp] lemma spawnGrowth_inUse (s : PoolState) :
    (spawnGrowth s).inUse = s.inUse := by
  unfold spawnGrowth
  split <;> rfl

@[simp] lemma spawnGrowth_nextId (s : PoolState) :
    (spawnGrowth s).nextId = s.nextId := by
  unfold spawnGrowth
  split <;> rfl

@[simp] lemma spawnGrowth_destroyed (s : PoolState) :
    (spawnGrowth s).destroyed = s.destroyed := by
  unfold spawnGrowth
  split <;> rfl

@[simp] lemma spawnGrowth_maxSize (s : PoolState) :
    (spawnGrowth s).maxSize = s.maxSize := by
  unfold spawnGrowth
  split <;> rfl

lemma goodState_spawnGrowth (s : PoolState) (h : GoodState s) :
    GoodState (spawnGrowth s) := by
  unfold spawnGrowth
  split
  · rename_i hlt
    have hacc := h.accounting
    have hb := h.bounded
    refine ⟨?_, ?_, h.freeNodup, h.inUseNodup, h.ownDisjoint, h.freeFresh,
      h.inUseFresh, h.destroyedFresh, h.destroyedNotFree, h.destroyedNotInUse⟩
    · dsimp only
      omega
    · dsimp only
      omega
  · exact h

lemma goodState_pop (t : PoolState) (c : Nat) (rest : List Nat)
    (h : GoodState t) (hfl : t.freeList = c :: rest) :
    GoodState { t with freeList := rest, inUse := c :: t.inUse } := by
  have hacc := h.accounting
  have hnd := h.freeNodup
  rw [hfl] at hacc hnd
  have hcmem : c ∈ t.freeList := by
    rw [hfl]
    exact List.mem_cons_self c rest
  refine ⟨?_, h.bounded, ?_, ?_, ?_, ?_, ?_, h.destroyedFresh, ?_, ?_⟩
  · dsimp only
    simp only [List.length_cons] at hacc ⊢
    omega
  · dsimp only
    exact (List.nodup_cons.mp hnd).2
  · dsimp only
    exact List.nodup_cons.mpr ⟨h.ownDisjoint c hcmem, h.inUseNodup⟩
  · intro x hx
    have hxf : x ∈ t.freeList := by
      rw [hfl]
      exact List.mem_cons_of_mem c hx
    have hxni := h.ownDisjoint x hxf
    have hxc : x ≠ c := by
      intro hxeq
      exact (List.nodup_cons.mp hnd).1 (hxeq ▸ hx)
    simp only [List.mem_cons, not_or]
    exact ⟨hxc, hxni⟩
  · intro x hx
    exact h.freeFresh x (by rw [hfl]; exact List.mem_cons_of_mem c hx)
  · intro x hx
    rcases List.mem_cons.mp hx with rfl | hx2
    · exact h.freeFresh x hcmem
    · exact h.inUseFresh x hx2
  · intro x hx
    have := h.destroyedNotFree x hx
    rw [hfl] at this
    simp only [List.mem_cons, not_or] at this
    exact this.2
  · intro x hx
    have hxnf := h.destroyedNotFree x hx
    have hxc : x ≠ c := fun hxeq => hxnf (hxeq ▸ hcmem)
    simp only [List.mem_cons, not_or]
    exact ⟨hxc, h.destroyedNotInUse x hx⟩

lemma goodState_handConn (t : PoolState) (h : GoodState t)
    (hc : 0 < t.connecting) :
    GoodState { t with
        connecting := t.connecting - 1
        inUse := t.nextId :: t.inUse
        nextId := t.nextId + 1 } := by
  have hacc := h.accounting
  refine ⟨?_, h.bounded, h.freeNodup, ?_, ?_, ?_, ?_, ?_, ?_, ?_⟩
  · dsimp only
    simp only [List.length_cons] at hacc ⊢
    omega
  · dsimp only
    refine List.nodup_cons.mpr ⟨fun hmem => ?_, h.inUseNodup⟩
    exact absurd (h.inUseFresh _ hmem) (lt_irrefl _)
  · intro x hx
    simp only [List.mem_cons, not_or]
    refine ⟨fun hxeq => ?_, h.ownDisjoint x hx⟩
    exact absurd (hxeq ▸ h.freeFresh x hx) (lt_irrefl _)
  · intro x hx
    exact Nat.lt_succ_of_lt (h.freeFresh x hx)
  · intro x hx
    rcases List.mem_cons.mp hx with rfl | hx2
    · exact Nat.lt_succ_self _
    · exact Nat.lt_succ_of_lt (h.inUseFresh x hx2)
  · intro x hx
    exact Nat.lt_succ_of_lt (h.destroyedFresh x hx)
  · intro x hx
    exact h.destroyedNotFree x hx
  · intro x hx
    simp only [List.mem_cons, not_or]
    refine ⟨fun hxeq => ?_, h.destroyedNotInUse x hx⟩
    exact absurd (hxeq ▸ h.destroyedFresh x hx) (lt_irrefl _)

lemma goodState_guardRelease (t : PoolState) (h : GoodState t)
    (hc : 0 < t.connecting) :
    GoodState { t with connecting := t.connecting - 1, size := t.size - 1 } := by
  have hacc := h.accounting
  have hb := h.bounded
  refine ⟨?_, ?_, h.freeNodup, h.inUseNodup, h.ownDisjoint, h.freeFresh,
    h.inUseFresh, h.destroyedFresh, h.destroyedNotFree, h.destroyedNotInUse⟩
  · dsimp only
    omega
  · dsimp only
    omega

lemma goodState_Acquire (s : PoolState) (d : Bool) (w : WaitOutcome)
    (h : GoodState s) : GoodState (Acquire s d w).2 := by
  unfold Acquire
  split
  · exact h
  · split
    · rename_i c rest hfl
      exact goodState_pop s c rest h hfl
    · split
      · split
        · rename_i hc
          exact goodState_handConn _ (goodState_spawnGrowth s h) hc
        · exact goodState_spawnGrowth s h
      · exact goodState_spawnGrowth s h
      · split
        · rename_i hc
          exact goodState_guardRelease _ (goodState_spawnGrowth s h) hc
        · exact goodState_spawnGrowth s h

lemma goodState_Release (s : PoolState) (broken : Bool) (h : GoodState s) :
    GoodState (Release s broken) := by
  unfold Release
  split
  · exact h
  · rename_i c rest hin
    have hacc := h.accounting
    have hnd := h.inUseNodup
    rw [hin] at hacc hnd
    have hcmem : c ∈ s.inUse := by
      rw [hin]
      exact List.mem_cons_self c rest
    split
    · refine ⟨?_, ?_, h.freeNodup, ?_, ?_, h.freeFresh, ?_, ?_, ?_, ?_⟩
      · dsimp only
        simp only [List.length_cons] at hacc ⊢
        omega
      · have hb := h.bounded
        dsimp only
        omega
      · dsimp only
        exact (List.nodup_cons.mp hnd).2
      · intro x hx
        have := h.ownDisjoint x hx
        rw [hin] at this
        simp only [List.mem_cons, not_or] at this
        exact this.2
      · intro x hx
        exact h.inUseFresh x (by rw [hin]; exact List.mem_cons_of_mem c hx)
      · intro x hx
        rcases List.mem_cons.mp hx with rfl | hx2
        · exact h.inUseFresh _ hcmem
        · exact h.destroyedFresh x hx2
      · intro x hx
        rcases List.mem_cons.mp hx with rfl | hx2
        · exact fun hcf => (h.ownDisjoint _ hcf) hcmem
        · exact h.destroyedNotFree x hx2
      · intro x hx
        rcases List.mem_cons.mp hx with rfl | hx2
        · exact (List.nodup_cons.mp hnd).1
        · have := h.destroyedNotInUse x hx2
          rw [hin] at this
          simp only [List.mem_cons, not_or] at this
          exact this.2
    · refine ⟨?_, h.bounded, ?_, ?_, ?_, ?_, ?_, h.destroyedFresh, ?_, ?_⟩
      · dsimp only
        simp only [List.length_cons] at hacc ⊢
        omega
      · dsimp only
        refine List.nodup_cons.mpr ⟨fun hcf => ?_, h.freeNodup⟩
        exact (h.ownDisjoint c hcf) hcmem
      · dsimp only
        exact (List.nodup_cons.mp hnd).2
      · intro x hx
        rcases List.mem_cons.mp hx with rfl | hx2
        · exact (List.nodup_cons.mp hnd).1
        · have := h.ownDisjoint x hx2
          rw [hin] at this
          simp only [List.mem_cons, not_or] at this
          exact this.2
      · intro x hx
        rcases List.mem_cons.mp hx with rfl | hx2
        · exact h.inUseFresh _ hcmem
        · exact h.freeFresh x hx2
      · intro x hx
        exact h.inUseFresh x (by rw [hin]; exact List.mem_cons_of_mem c hx)
      · intro x hx
        have hxni := h.destroyedNotInUse x hx
        have hxc : x ≠ c := fun hxeq => hxni (hxeq ▸ hcmem)
        simp only [List.mem_cons, not_or]
        exact ⟨hxc, h.destroyedNotFree x hx⟩
      · intro x hx
        have := h.destroyedNotInUse x hx
        rw [hin] at this
        simp only [List.mem_cons, not_or] at this
        exact this.2

lemma goodState_connectSuccess (s : PoolState) (h : GoodState s) :
    GoodState (connectSuccess s) := by
  unfold connectSuccess
  split
  · rename_i hc
    have hacc := h.accounting
    refine ⟨?_, h.bounded, ?_, h.inUseNodup, ?_, ?_, ?_, ?_, ?_, ?_⟩
    · dsimp only
      simp only [List.length_cons] at hacc ⊢
      omega
    · dsimp only
      refine List.nodup_cons.mpr ⟨fun hmem => ?_, h.freeNodup⟩
      exact absurd (h.freeFresh _ hmem) (lt_irrefl _)
    · intro x hx
      rcases List.mem_cons.mp hx with rfl | hx2
      · intro hmem
        exact absurd (h.inUseFresh _ hmem) (lt_irrefl _)
      · exact h.ownDisjoint x hx2
    · intro x hx
      rcases List.mem_cons.mp hx with rfl | hx2
      · exact Nat.lt_succ_self _
      · exact Nat.lt_succ_of_lt (h.freeFresh x hx2)
    · intro x hx
      exact Nat.lt_succ_of_lt (h.inUseFresh x hx)
    · intro x hx
      exact Nat.lt_succ_of_lt (h.destroyedFresh x hx)
    · intro x hx
      simp only [List.mem_cons, not_or]
      refine ⟨fun hxeq => ?_, h.destroyedNotFree x hx⟩
      exact absurd (hxeq ▸ h.destroyedFresh x hx) (lt_irrefl _)
    · intro x hx
      exact h.destroyedNotInUse x hx
  · exact h

lemma goodState_connectFailure (s : PoolState) (h : GoodState s) :
    GoodState (connectFailure s) := by
  unfold connectFailure
  split
  · rename_i hc
    exact goodState_guardRelease s h hc
  · exact h

lemma goodState_setCmdCtl (s : PoolState) (cc : CommandControl)
    (h : GoodState s) : GoodState (SetDefaultCommandControl s cc) :=
  ⟨h.accounting, h.bounded, h.freeNodup, h.inUseNodup, h.ownDisjoint,
   h.freeFresh, h.inUseFresh, h.destroyedFresh, h.destroyedNotFree,
   h.destroyedNotInUse⟩

lemma goodState_step (s : PoolState) (e : PoolEvent) (h : GoodState s) :
    GoodState (step s e) := by
  rcases e with ⟨d, w⟩ | broken | _ | _ | cc
  · exact goodState_Acquire s d w h
  · exact goodState_Release s broken h
  · exact goodState_connectSuccess s h
  · exact goodState_connectFailure s h
  · exact goodState_setCmdCtl s cc h

lemma goodState_run (s : PoolState) (es : List PoolEvent) (h : GoodState s) :
    GoodState (run s es) := by
  induction es generalizing s with
  | nil => exact h
  | cons e rest ih => exact ih (step s e) (goodState_step s e h)

lemma goodState_initialPool (maxSize : Nat) (cc : CommandControl) :
    GoodState (initialPool maxSize cc) := by
  refine ⟨?_, ?_, ?_, ?_, ?_, ?_, ?_, ?_, ?_, ?_⟩ <;>
    simp [initialPool]

lemma Acquire_maxSize (s : PoolState) (d : Bool) (w : WaitOutcome) :
    (Acquire s d w).2.maxSize = s.maxSize := by
  unfold Acquire
  split
  · rfl
  · split
    · rfl
    · split
      · split <;> simp
      · simp
      · split <;> simp

lemma step_maxSize (s : PoolState) (e : PoolEvent) :
    (step s e).maxSize = s.maxSize := by
  rcases e with ⟨d, w⟩ | broken | _ | _ | cc
  · exact Acquire_maxSize s d w
  · show (Release s broken).maxSize = s.maxSize
    unfold Release
    split
    · rfl
    · split <;> rfl
  · show (connectSuccess s).maxSize = s.maxSize
    unfold connectSuccess
    split <;> rfl
  · show (connectFailure s).maxSize = s.maxSize
    unfold connectFailure
    split <;> rfl
  · rfl

lemma run_maxSize (s : PoolState) (es : List PoolEvent) :
    (run s es).maxSize = s.maxSize := by
  induction es generalizing s with
  | nil => rfl
  | cons e rest ih => exact (ih (step s e)).trans (step_maxSize s e)

lemma Acquire_destroyed (s : PoolState) (d : Bool) (w : WaitOutcome) :
    (Acquire s d w).2.destroyed = s.destroyed := by
  unfold Acquire
  split
  · rfl
  · split
    · rfl
    · split
      · split <;> simp
      · simp
      · split <;> simp

lemma step_destroyed_mono (s : PoolState) (e : PoolEvent) (c : Nat)
    (hc : c ∈ s.destroyed) : c ∈ (step s e).destroyed := by
  rcases e with ⟨d, w⟩ | broken | _ | _ | cc
  · show c ∈ (Acquire s d w).2.destroyed
    rw [Acquire_destroyed]
    exact hc
  · show c ∈ (Release s broken).destroyed
    unfold Release
    split
    · exact hc
    · split
      · exact List.mem_cons_of_mem _ hc
      · exact hc
  · show c ∈ (connectSuccess s).destroyed
    unfold connectSuccess
    split <;> exact hc
  · show c ∈ (connectFailure s).destroyed
    unfold connectFailure
    split <;> exact hc
  · exact hc

lemma run_destroyed_mono (s : PoolState) (es : List PoolEvent) (c : Nat)
    (hc : c ∈ s.destroyed) : c ∈ (run s es).destroyed := by
  induction es generalizing s with
  | nil => exact hc
  | cons e rest ih => exact ih (step s e) (step_destroyed_mono s e c hc)

lemma Acquire_ok_not_destroyed (s : PoolState) (d : Bool) (w : WaitOutcome)
    (h : GoodState s) (c : Nat) (hres : (Acquire s d w).1 = .ok c) :
    c ∉ s.destroyed := by
  unfold Acquire at hres
  split at hres
  · exact absurd hres (by simp)
  · split at hres
    · rename_i c0 rest hfl
      have hc0 : c0 = c := by simpa using hres
      subst hc0
      intro hd
      exact (h.destroyedNotFree c0 hd)
        (by rw [hfl]; exact List.mem_cons_self _ _)
    · split at hres
      · split at hres
        · have hcn : (spawnGrowth s).nextId = c := by simpa using hres
          rw [spawnGrowth_nextId] at hcn
          intro hd
          have := h.destroyedFresh c hd
          omega
        · exact absurd hres (by simp)
      · exact absurd hres (by simp)
      · split at hres <;> exact absurd hres (by simp)

end Pg

end Userver

namespace Userver

/-- Claim C9: for every TimePoint at or after the epoch,
FractionalMicroseconds equals the count of microseconds in the
time-since-epoch modulo 1000000, hence its result is always strictly less
than 1000000.  (The nonnegative result also survives the conversion to the
unsigned long return type unchanged.) -/
theorem fractionalMicroseconds_mod_bound (t : Int) (ht : 0 ≤ t) :
    Logging.FractionalMicroseconds t = t % 1000000 ∧
    Logging.FractionalMicroseconds t < 1000000 := by
  obtain ⟨m, rfl⟩ := Int.eq_ofNat_of_zero_le ht
  have hmod : Logging.FractionalMicroseconds (m : Int) =
      ((m % 1000000 : Nat) : Int) := rfl
  refine ⟨?_, ?_⟩
  · rw [hmod]
    omega
  · rw [hmod]
    exact_mod_cast Nat.mod_lt m (by norm_num)

/-- Witness for C9: FractionalMicroseconds at the concrete microsecond count
1234567. -/
theorem fractionalMicroseconds_mod_bound_witness :
    Logging.FractionalMicroseconds 1234567 = 1234567 % 1000000 ∧
    Logging.FractionalMicroseconds 1234567 < 1000000 :=
  fractionalMicroseconds_mod_bound 1234567 (by decide)

/-- Claim C10: for every key and every double value that is NaN or infinite,
InlineObjectBuilder::Append(key, value) and InlineArrayBuilder::Append(value)
throw formats::json::Exception and leave the document under construction
unchanged (the error result carries no modified builder); for every finite
double the member or element is appended. -/
theorem inline_builders_append_double (b : Json.InlineObjectBuilder)
    (a : Json.InlineArrayBuilder) (key : String) (v : Json.DoubleVal) :
    (v.isFinite = false →
      b.Append key v = .error .valueIsNotFinite ∧
      a.Append v = .error .valueIsNotFinite) ∧
    (v.isFinite = true →
      b.Append key v = .ok ⟨b.members ++ [(key, v)]⟩ ∧
      a.Append v = .ok ⟨a.elements ++ [v]⟩) := by
  constructor
  · intro hv
    simp [Json.InlineObjectBuilder.Append, Json.InlineArrayBuilder.Append,
      Json.ValidateFloat, hv]
  · intro hv
    simp [Json.InlineObjectBuilder.Append, Json.InlineArrayBuilder.Append,
      Json.ValidateFloat, hv]

/-- Witness for C10: appending NaN to an empty object fails with the
exception, appending the finite double 3 succeeds and appends the member. -/
theorem inline_builders_append_double_witness :
    Json.InlineObjectBuilder.Append ⟨[]⟩ "k" .nan =
      .error .valueIsNotFinite ∧
    Json.InlineObjectBuilder.Append ⟨[]⟩ "k" (.finite 3) =
      .ok ⟨[("k", .finite 3)]⟩ :=
  ⟨((inline_builders_append_double ⟨[]⟩ ⟨[]⟩ "k" .nan).1 (by decide)).1,
   ((inline_builders_append_double ⟨[]⟩ ⟨[]⟩ "k" (.finite 3)).2 (by decide)).1⟩

/-- Counterexample to C1 as stated: with the configured maximum lag -1
(non-positive, as in the ReplicationLag test of topology_pgtest.cpp) a
reachable read-only host with lag 0 is classified Excluded, not Slave; the
literal reading of the specification sentence would classify it Slave. -/
theorem replication_lag_nonpositive_counterexample :
    (Pg.TopologySettings.mk (-1)).maxReplicationLag ≤ 0 ∧
    Pg.classifyHost ⟨-1⟩ ⟨true, true, 0, false⟩ ≠ .kSlave ∧
    Pg.classifyHost ⟨-1⟩ ⟨true, true, 0, false⟩ = .kExcluded ∧
    Pg.classifyHostSpecStated ⟨-1⟩ ⟨true, true, 0, false⟩ = .kSlave := by
  decide

/-- C1 (amended): a non-positive maximum lag does not disable lag tracking.
For every probe round with max_lag ≤ 0, a reachable read-only
(non-synchronous) host is classified Slave exactly when its reported lag
is at most max_lag; in particular with a strictly negative max_lag it is
Excluded whenever its lag is nonnegative. -/
theorem classifyHost_nonpositive_max_lag (s : Pg.TopologySettings)
    (h : Pg.HostReport) (_hs : s.maxReplicationLag ≤ 0)
    (hr : h.reachable = true) (hro : h.readOnly = true)
    (hsync : h.isSyncReplica = false) :
    (Pg.classifyHost s h = .kSlave ↔ h.lag ≤ s.maxReplicationLag) ∧
    (s.maxReplicationLag < 0 → 0 ≤ h.lag →
      Pg.classifyHost s h = .kExcluded) := by
  have hcl : Pg.classifyHost s h =
      if h.lag ≤ s.maxReplicationLag then .kSlave else .kExcluded := by
    simp [Pg.classifyHost, hr, hro, hsync]
  rw [hcl]
  constructor
  · split
    · rename_i hl
      simp [hl]
    · rename_i hl
      simp [hl]
  · intro hneg hlag
    rw [if_neg (by omega)]

/-- Witness for the amended C1: with max lag -1 a reachable read-only host
with lag 5 is not a Slave (5 is not at most -1) and is Excluded. -/
theorem classifyHost_nonpositive_max_lag_witness :
    (Pg.classifyHost ⟨-1⟩ ⟨true, true, 5, false⟩ = .kSlave ↔
      (5 : Int) ≤ (-1 : Int)) ∧
    ((-1 : Int) < 0 → (0 : Int) ≤ 5 →
      Pg.classifyHost ⟨-1⟩ ⟨true, true, 5, false⟩ = .kExcluded) :=
  classifyHost_nonpositive_max_lag ⟨-1⟩ ⟨true, true, 5, false⟩
    (by decide) rfl rfl rfl

/-- Claim C5: in every probe round in which zero hosts or more than one
host report not-read-only (among reachable hosts), the topology does not
publish a new classification — the snapshot after the round equals the
snapshot before the round. -/
theorem inconsistent_round_keeps_previous_snapshot (s : Pg.TopologySettings)
    (snap : Pg.DsnIndicesByType) (reports : List Pg.HostReport)
    (h : (reports.filter fun r => r.reachable && !r.readOnly).length ≠ 1) :
    Pg.runRound s snap reports = snap := by
  have hc : Pg.roundConsistent s reports = false := by
    unfold Pg.roundConsistent
    rw [Pg.master_indices_count]
    exact beq_eq_false_iff_ne.mpr h
  unfold Pg.runRound
  simp [hc]

/-- Witness for C5: a round with two hosts both claiming mastership leaves
the previously published snapshot untouched. -/
theorem inconsistent_round_keeps_previous_snapshot_witness :
    Pg.runRound ⟨60⟩ ⟨[0], [], [1]⟩
      [⟨true, false, 0, false⟩, ⟨true, false, 0, false⟩] = ⟨[0], [], [1]⟩ :=
  inconsistent_round_keeps_previous_snapshot ⟨60⟩ ⟨[0], [], [1]⟩
    [⟨true, false, 0, false⟩, ⟨true, false, 0, false⟩] (by decide)

/-- Claim C6: GetDsnIndicesByType never fails — it is a total function on
the topology state, and after any sequence of probe rounds (including
rounds in which every host is unreachable, which are inconsistent and
publish nothing) it returns a complete classification produced atomically
by some earlier consistent probe round, or the initial snapshot; never a
partially updated one. -/
theorem get_dsn_indices_by_type_last_known_good (t : Pg.QuorumCommitTopology)
    (rounds : List (List Pg.HostReport)) :
    (Pg.runRounds t rounds).GetDsnIndicesByType = t.GetDsnIndicesByType ∨
    ∃ r ∈ rounds, Pg.roundConsistent t.settings r = true ∧
      (Pg.runRounds t rounds).GetDsnIndicesByType =
        Pg.classifyRound t.settings r := by
  induction rounds generalizing t with
  | nil => exact Or.inl rfl
  | cons r rs ih =>
    have hrun : Pg.runRounds t (r :: rs) =
        Pg.runRounds (Pg.topologyStep t r) rs := rfl
    rcases ih (Pg.topologyStep t r) with heq | ⟨r2, hr2, hcons, heq⟩
    · by_cases hcon : Pg.roundConsistent t.settings r = true
      · right
        refine ⟨r, List.mem_cons_self _ _, hcon, ?_⟩
        rw [hrun, heq]
        show (Pg.topologyStep t r).dsnIndicesByType = _
        unfold Pg.topologyStep Pg.runRound
        simp [hcon]
      · left
        rw [hrun, heq]
        show (Pg.topologyStep t r).dsnIndicesByType = t.dsnIndicesByType
        unfold Pg.topologyStep Pg.runRound
        simp [hcon]
    · right
      exact ⟨r2, List.mem_cons_of_mem _ hr2, hcons, by rw [hrun]; exact heq⟩

/-- Claim C2: for every sequence of pool operations starting from a fresh
pool, the size counter never exceeds max_size, never goes negative, and
always equals the number of live connections (free + in-use + in-flight):
every Connection lifetime decrements it exactly once, on destruction, on
whichever code path destroys it. -/
theorem pool_size_invariant (maxSize : Nat) (cc : Pg.CommandControl)
    (es : List Pg.PoolEvent) :
    0 ≤ (Pg.run (Pg.initialPool maxSize cc) es).size ∧
    (Pg.run (Pg.initialPool maxSize cc) es).size ≤ (maxSize : Int) ∧
    (Pg.run (Pg.initialPool maxSize cc) es).size =
      (((Pg.run (Pg.initialPool maxSize cc) es).freeList.length
        + (Pg.run (Pg.initialPool maxSize cc) es).inUse.length
        + (Pg.run (Pg.initialPool maxSize cc) es).connecting : Nat) : Int) := by
  have hg := Pg.goodState_run _ es (Pg.goodState_initialPool maxSize cc)
  have hm : (Pg.run (Pg.initialPool maxSize cc) es).maxSize = maxSize :=
    Pg.run_maxSize _ es
  refine ⟨?_, ?_, hg.accounting⟩
  · have := hg.accounting
    omega
  · have := hg.bounded
    rwa [hm] at this

/-- Claim C3: Acquire(deadline) first tries a non-blocking pop from the
free list and returns the popped connection on success; on empty it spawns
an asynchronous Connect task exactly when size < max_size (the Capacity
Guard raising size and the in-flight count by one, and nothing changing
otherwise) and blocks on the condition variable; it fails with PoolTimeout
exactly when the deadline elapses before a connection becomes available
(already elapsed at the call, or expiring during the wait), and with
PoolError when no connection can be established.  The two hypotheses say
the environment is well formed: a waiter can only be handed a connection,
or observe a failed connect, while a connect attempt is actually in
flight. -/
theorem acquire_algorithm (s : Pg.PoolState) (d : Bool) (w : Pg.WaitOutcome)
    (hg : w = .gotConn → 0 < (Pg.spawnGrowth s).connecting)
    (hf : w = .connectFailed → 0 < (Pg.spawnGrowth s).connecting) :
    (∀ c rest, d = false → s.freeList = c :: rest →
      Pg.Acquire s d w =
        (.ok c, { s with freeList := rest, inUse := c :: s.inUse })) ∧
    (d = false → s.freeList = [] → w = .deadlineHit →
      (Pg.Acquire s d w).2 = Pg.spawnGrowth s) ∧
    (s.size < (s.maxSize : Int) →
      (Pg.spawnGrowth s).connecting = s.connecting + 1 ∧
      (Pg.spawnGrowth s).size = s.size + 1) ∧
    (¬ s.size < (s.maxSize : Int) → Pg.spawnGrowth s = s) ∧
    ((Pg.Acquire s d w).1 = .poolTimeout ↔
      d = true ∨ (s.freeList = [] ∧ w = .deadlineHit)) ∧
    ((Pg.Acquire s d w).1 = .poolError ↔
      d = false ∧ s.freeList = [] ∧ w = .connectFailed) := by
  have hsp1 : s.size < (s.maxSize : Int) →
      (Pg.spawnGrowth s).connecting = s.connecting + 1 ∧
      (Pg.spawnGrowth s).size = s.size + 1 := by
    intro hlt
    unfold Pg.spawnGrowth
    rw [if_pos hlt]
    exact ⟨rfl, rfl⟩
  have hsp2 : ¬ s.size < (s.maxSize : Int) → Pg.spawnGrowth s = s := by
    intro hge
    unfold Pg.spawnGrowth
    rw [if_neg hge]
  cases d with
  | true =>
    have hval : Pg.Acquire s true w = (.poolTimeout, s) := rfl
    refine ⟨?_, ?_, hsp1, hsp2, ?_, ?_⟩
    · intro c rest hd
      exact absurd hd (by simp)
    · intro hd
      exact absurd hd (by simp)
    · rw [hval]
      simp
    · rw [hval]
      simp
  | false =>
    cases hfl : s.freeList with
    | cons c0 rest0 =>
      have hval : Pg.Acquire s false w =
          (.ok c0, { s with freeList := rest0, inUse := c0 :: s.inUse }) := by
        unfold Pg.Acquire
        rw [hfl]
        rfl
      refine ⟨?_, ?_, hsp1, hsp2, ?_, ?_⟩
      · intro c rest _ hfl2
        injection hfl2 with h1 h2
        subst h1
        subst h2
        exact hval
      · intro _ hfl2
        exact absurd hfl2 (by simp)
      · rw [hval]
        simp
      · rw [hval]
        simp
    | nil =>
      cases w with
      | gotConn =>
        have hc := hg rfl
        have hval1 : (Pg.Acquire s false .gotConn).1 =
            .ok (Pg.spawnGrowth s).nextId := by
          unfold Pg.Acquire
          rw [hfl]
          simp [hc]
        refine ⟨?_, ?_, hsp1, hsp2, ?_, ?_⟩
        · intro c rest _ hfl2
          exact absurd hfl2 (by simp)
        · intro _ _ hw
          exact absurd hw (by simp)
        · rw [hval1]
          simp
        · rw [hval1]
          simp
      | deadlineHit =>
        have hval : Pg.Acquire s false .deadlineHit =
            (.poolTimeout, Pg.spawnGrowth s) := by
          unfold Pg.Acquire
          rw [hfl]
          rfl
        refine ⟨?_, ?_, hsp1, hsp2, ?_, ?_⟩
        · intro c rest _ hfl2
          exact absurd hfl2 (by simp)
        · intro _ _ _
          rw [hval]
        · rw [hval]
          simp
        · rw [hval]
          simp
      | connectFailed =>
        have hc := hf rfl
        have hval1 : (Pg.Acquire s false .connectFailed).1 = .poolError := by
          unfold Pg.Acquire
          rw [hfl]
          simp [hc]
        refine ⟨?_, ?_, hsp1, hsp2, ?_, ?_⟩
        · intro c rest _ hfl2
          exact absurd hfl2 (by simp)
        · intro _ _ hw
          exact absurd hw (by simp)
        · rw [hval1]
          simp
        · rw [hval1]
          simp

/-- Witness for C3: on a fresh empty pool with a live deadline whose wait
ends by expiry, Acquire fails with PoolTimeout. -/
theorem acquire_algorithm_witness :
    (Pg.Acquire ⟨1, 0, [], [], 0, 0, [], 0, ⟨0, 0, 0⟩⟩ false .deadlineHit).1
      = .poolTimeout :=
  (acquire_algorithm ⟨1, 0, [], [], 0, 0, [], 0, ⟨0, 0, 0⟩⟩ false
      .deadlineHit (by decide) (by decide)).2.2.2.2.1.mpr
    (Or.inr ⟨rfl, rfl⟩)

/-- Claim C4: a connection that reports itself broken when passed to
Release is destroyed (size decremented, id recorded destroyed, free list
untouched), and is never pushed back onto the free list nor returned by
any subsequent Acquire; a non-broken connection within capacity is pushed
back onto the free list and one waiter is notified. -/
theorem release_broken_never_reacquired (maxSize : Nat)
    (cc : Pg.CommandControl) (c : Nat) (es es2 : List Pg.PoolEvent)
    (d : Bool) (w : Pg.WaitOutcome) :
    (∀ rest, (Pg.run (Pg.initialPool maxSize cc) es).inUse = c :: rest →
      Pg.Release (Pg.run (Pg.initialPool maxSize cc) es) true =
        { Pg.run (Pg.initialPool maxSize cc) es with
            inUse := rest
            size := (Pg.run (Pg.initialPool maxSize cc) es).size - 1
            destroyed :=
              c :: (Pg.run (Pg.initialPool maxSize cc) es).destroyed }) ∧
    (∀ rest, (Pg.run (Pg.initialPool maxSize cc) es).inUse = c :: rest →
      Pg.Release (Pg.run (Pg.initialPool maxSize cc) es) false =
        { Pg.run (Pg.initialPool maxSize cc) es with
            inUse := rest
            freeList :=
              c :: (Pg.run (Pg.initialPool maxSize cc) es).freeList
            notifyCount :=
              (Pg.run (Pg.initialPool maxSize cc) es).notifyCount + 1 }) ∧
    (c ∈ (Pg.run (Pg.initialPool maxSize cc) es).destroyed →
      c ∉ (Pg.run (Pg.run (Pg.initialPool maxSize cc) es) es2).freeList ∧
      (Pg.Acquire (Pg.run (Pg.run (Pg.initialPool maxSize cc) es) es2)
        d w).1 ≠ .ok c) := by
  have hg := Pg.goodState_run _ es (Pg.goodState_initialPool maxSize cc)
  refine ⟨?_, ?_, ?_⟩
  · intro rest hin
    unfold Pg.Release
    rw [hin]
    rfl
  · intro rest hin
    have hcond : decide
        (((Pg.run (Pg.initialPool maxSize cc) es).maxSize : Int)
          < (Pg.run (Pg.initialPool maxSize cc) es).size) = false := by
      simp only [decide_eq_false_iff_not]
      have := hg.bounded
      omega
    unfold Pg.Release
    rw [hin, hcond]
    rfl
  · intro hdes
    have hdes2 := Pg.run_destroyed_mono _ es2 c hdes
    have hg2 := Pg.goodState_run _ es2 hg
    exact ⟨hg2.destroyedNotFree c hdes2,
      fun hres => (Pg.Acquire_ok_not_destroyed _ d w hg2 c hres) hdes2⟩

/-- Witness for C4 at a concrete history: connection 0 is created and
acquired, released as broken, and a later Acquire on the resulting pool
does not return connection 0; the two Release equations are exhibited on
the same one-connection pool. -/
theorem release_broken_never_reacquired_witness :
    (Pg.Acquire (Pg.run (Pg.run (Pg.initialPool 2 ⟨0, 0, 0⟩)
        [.acquire false .gotConn, .release true]) []) false .gotConn).1
      ≠ .ok 0 ∧
    Pg.Release (Pg.run (Pg.initialPool 2 ⟨0, 0, 0⟩)
        [.acquire false .gotConn]) true
      = { Pg.run (Pg.initialPool 2 ⟨0, 0, 0⟩) [.acquire false .gotConn] with
          inUse := []
          size := (Pg.run (Pg.initialPool 2 ⟨0, 0, 0⟩)
              [.acquire false .gotConn]).size - 1
          destroyed := 0 :: (Pg.run (Pg.initialPool 2 ⟨0, 0, 0⟩)
              [.acquire false .gotConn]).destroyed } ∧
    Pg.Release (Pg.run (Pg.initialPool 2 ⟨0, 0, 0⟩)
        [.acquire false .gotConn]) false
      = { Pg.run (Pg.initialPool 2 ⟨0, 0, 0⟩) [.acquire false .gotConn] with
          inUse := []
          freeList := 0 :: (Pg.run (Pg.initialPool 2 ⟨0, 0, 0⟩)
              [.acquire false .gotConn]).freeList
          notifyCount := (Pg.run (Pg.initialPool 2 ⟨0, 0, 0⟩)
              [.acquire false .gotConn]).notifyCount + 1 } :=
  ⟨((release_broken_never_reacquired 2 ⟨0, 0, 0⟩ 0
      [.acquire false .gotConn, .release true] [] false .gotConn).2.2
      (by decide)).2,
   (release_broken_never_reacquired 2 ⟨0, 0, 0⟩ 0
      [.acquire false .gotConn] [] false .gotConn).1 [] (by decide),
   (release_broken_never_reacquired 2 ⟨0, 0, 0⟩ 0
      [.acquire false .gotConn] [] false .gotConn).2.1 [] (by decide)⟩

/-- Claim C7: after SetDefaultCommandControl(cc), a transaction begun with
no override strictly after the call resolves its command control to cc,
while a transaction whose settings were already resolved before the call
keeps the value it resolved from the configuration current at its own
start. -/
theorem set_default_command_control_round_trip (maxSize : Nat)
    (cc0 newCc : Pg.CommandControl) (es : List Pg.PoolEvent)
    (o : Option Pg.CommandControl) :
    (Pg.Begin (Pg.run (Pg.initialPool maxSize cc0)
        (es ++ [.setCmdCtl newCc])) none).cmdCtl = newCc ∧
    (Pg.Begin (Pg.run (Pg.initialPool maxSize cc0) es) o).cmdCtl
      = Pg.resolveCommandControl o
          (Pg.run (Pg.initialPool maxSize cc0) es).defaultCmdCtl := by
  constructor
  · have hrw : Pg.run (Pg.initialPool maxSize cc0) (es ++ [.setCmdCtl newCc])
        = Pg.step (Pg.run (Pg.initialPool maxSize cc0) es)
            (.setCmdCtl newCc) := by
      unfold Pg.run
      rw [List.foldl_append]
      rfl
    rw [hrw]
    rfl
  · rfl

/-- Claim C8: for every pool state and an already-elapsed deadline,
Acquire fails immediately with PoolTimeout and leaves the entire pool
state — in particular the size counter — unchanged. -/
theorem acquire_elapsed_deadline_timeout (s : Pg.PoolState)
    (w : Pg.WaitOutcome) :
    (Pg.Acquire s true w).1 = .poolTimeout ∧
    (Pg.Acquire s true w).2 = s ∧
    (Pg.Acquire s true w).2.size = s.size :=
  ⟨rfl, rfl, rfl⟩

end Userver
